import Mathlib

/-
  Verification development for the simplify pass of the minify repository
  (src/simplify-plugin/index.js).  The AST is modelled as an untyped tagged
  tree, mirroring the dynamically typed node objects the source manipulates;
  a field the source may leave null or undefined holds the distinguished
  node `hole`.
-/

namespace Minify

/-- Literal values carried by `Literal` nodes (booleans, numbers, strings,
null), as in the data model of the pass. -/
inductive LitVal where
  | b (value : Bool)
  | n (value : Int)
  | s (value : String)
  | nul
deriving DecidableEq, Repr

/-- Untyped AST node, translated from the node kinds manipulated by
src/simplify-plugin/index.js.  `hole` stands for a JavaScript null or
undefined stored in a child slot (absent `alternate`, absent `init`,
absent `argument`, ...). -/
inductive Node where
  | identifier (name : String)
  | literal (value : LitVal)
  | unaryExpression (operator : String) (argument : Node) (pfx : Bool)
  | binaryExpression (operator : String) (left right : Node)
  | logicalExpression (operator : String) (left right : Node)
  | conditionalExpression (test consequent alternate : Node)
  | sequenceExpression (expressions : List Node)
  | callExpression (callee : Node) (args : List Node)
  | memberExpression (obj prop : Node) (computed : Bool)
  | property (key value : Node) (computed : Bool)
  | functionExpression (id : Node) (params : List Node) (body : Node)
  | functionDeclaration (id : Node) (params : List Node) (body : Node)
  | variableDeclaration (kind : String) (declarations : List Node)
  | variableDeclarator (id : Node) (init : Node)
  | expressionStatement (expression : Node)
  | returnStatement (argument : Node)
  | ifStatement (test consequent alternate : Node)
  | forStatement (init test update : Node) (body : Node)
  | whileStatement (test : Node) (body : Node)
  | blockStatement (body : List Node)
  | program (body : List Node)
  | tryStatement (block handler finalizer : Node)
  | catchClause (param : Node) (body : Node)
  | hole

namespace Node

/-- Truthiness of a node reference in the source: an actual node object is
truthy, a null/undefined slot (`hole`) is falsy. -/
def isNode : Node → Bool
  | .hole => false
  | _ => true

/-- t.isExpression: the node kind belongs to the Expression alias. -/
def isExpression : Node → Bool
  | .identifier _ => true
  | .literal _ => true
  | .unaryExpression _ _ _ => true
  | .binaryExpression _ _ _ => true
  | .logicalExpression _ _ _ => true
  | .conditionalExpression _ _ _ => true
  | .sequenceExpression _ => true
  | .callExpression _ _ => true
  | .memberExpression _ _ _ => true
  | .functionExpression _ _ _ => true
  | _ => false

/-- t.isExpressionStatement. -/
def isExpressionStatement : Node → Bool
  | .expressionStatement _ => true
  | _ => false

/-- t.isSequenceExpression. -/
def isSequenceExpression : Node → Bool
  | .sequenceExpression _ => true
  | _ => false

/-- t.isReturnStatement. -/
def isReturnStatement : Node → Bool
  | .returnStatement _ => true
  | _ => false

/-- t.isIfStatement. -/
def isIfStatement : Node → Bool
  | .ifStatement _ _ _ => true
  | _ => false

/-- t.isBlockStatement. -/
def isBlockStatement : Node → Bool
  | .blockStatement _ => true
  | _ => false

/-- t.isVariableDeclaration. -/
def isVariableDeclaration : Node → Bool
  | .variableDeclaration _ _ => true
  | _ => false

/-- t.isVariableDeclaration with a kind constraint. -/
def isVariableDeclarationOfKind (k : String) : Node → Bool
  | .variableDeclaration kind _ => kind == k
  | _ => false

/-- t.isForStatement. -/
def isForStatement : Node → Bool
  | .forStatement _ _ _ _ => true
  | _ => false

/-- t.isFunction (function expressions and declarations). -/
def isFunction : Node → Bool
  | .functionExpression _ _ _ => true
  | .functionDeclaration _ _ _ => true
  | _ => false

/-- t.isFunctionDeclaration. -/
def isFunctionDeclaration : Node → Bool
  | .functionDeclaration _ _ _ => true
  | _ => false

/-- t.isFunctionExpression. -/
def isFunctionExpression : Node → Bool
  | .functionExpression _ _ _ => true
  | _ => false

/-- t.isTryStatement. -/
def isTryStatement : Node → Bool
  | .tryStatement _ _ _ => true
  | _ => false

/-- t.isCatchClause. -/
def isCatchClause : Node → Bool
  | .catchClause _ _ => true
  | _ => false

/-- t.isLiteral. -/
def isLiteral : Node → Bool
  | .literal _ => true
  | _ => false

/-- t.isUnaryExpression with a given operator constraint. -/
def isUnaryExpressionOp (op : String) : Node → Bool
  | .unaryExpression o _ _ => o == op
  | _ => false

/-- t.isBinaryExpression. -/
def isBinaryExpression : Node → Bool
  | .binaryExpression _ _ _ => true
  | _ => false

/-- t.isIdentifier with a name constraint. -/
def isIdentifierNamed (nm : String) : Node → Bool
  | .identifier name => name == nm
  | _ => false

end Node

/-- The JavaScript `a || b` default idiom on node references: the left
node when it is an actual node, otherwise the right one. -/
def jsOr (a b : Node) : Node :=
  if a.isNode then a else b

/-- The constant VOID_0 of the plugin: `t.unaryExpression(void, 0, true)`. -/
def VOID_0 : Node := .unaryExpression "void" (.literal (.n 0)) true

/-- t.EQUALITY_BINARY_OPERATORS. -/
def EQUALITY_BINARY_OPERATORS : List String := ["==", "===", "!=", "!=="]

/-! ## The per-kind rewrite rules, translated one to one from the visitor
table of src/simplify-plugin/index.js. -/

/-- The ReferencedIdentifier rule: `undefined` becomes `void 0`.
Returns the replacement, or `none` when the rule does not fire. -/
def referencedIdentifierRule (node : Node) : Option Node :=
  match node with
  | .identifier name => if name == "undefined" then some VOID_0 else none
  | _ => none

/-- The Property exit rule: a literal key naming a valid identifier is
rewritten to an identifier key and `computed` is cleared.  The valid
identifier test is the environment predicate `t.isValidIdentifier`,
passed in as `validIdent` (false on non-string literal values, as in the
source where the check is on strings). -/
def propertyExitRule (validIdent : String → Bool) (node : Node) : Node :=
  match node with
  | .property key value computed =>
      match key with
      | .literal (.s str) =>
          if validIdent str then .property (.identifier str) value false
          else .property key value computed
      | _ => .property key value computed
  | _ => node

/-- The MemberExpression exit rule: a computed access with a literal
property naming a valid identifier becomes dotted access. -/
def memberExitRule (validIdent : String → Bool) (node : Node) : Node :=
  match node with
  | .memberExpression obj prop computed =>
      match prop with
      | .literal (.s str) =>
          if computed && validIdent str then .memberExpression obj (.identifier str) false
          else .memberExpression obj prop computed
      | _ => .memberExpression obj prop computed
  | _ => node

/-- The CallExpression rule: `Number(x)` to `+x`, `String(x)` to `x + ""`,
and the IIFE marker wrapping the callee in `!` when the parent is an
expression statement or a sequence expression.  Returns the replacement,
or `none`. -/
def callExpressionRule (parentIsExprStmtOrSeq : Bool) (node : Node) : Option Node :=
  match node with
  | .callExpression callee args =>
      if callee.isIdentifierNamed "Number" && args.length == 1 then
        some (.unaryExpression "+" (args.getD 0 .hole) true)
      else if callee.isIdentifierNamed "String" && args.length == 1 then
        some (.binaryExpression "+" (args.getD 0 .hole) (.literal (.s "")))
      else if callee.isFunctionExpression && parentIsExprStmtOrSeq then
        some (.callExpression (.unaryExpression "!" callee false) args)
      else none
  | _ => none

/-- The LogicalExpression rule: `!foo && bar` becomes `foo || bar`
(in-place mutation of operator and left operand). -/
def logicalExpressionRule (node : Node) : Node :=
  match node with
  | .logicalExpression "&&" (.unaryExpression "!" arg _) right =>
      .logicalExpression "||" arg right
  | _ => node

/-- The Literal rule: `true` becomes `!0` and `false` becomes `!1`.
Returns the replacement, or `none`. -/
def literalRule (node : Node) : Option Node :=
  match node with
  | .literal (.b value) =>
      some (.unaryExpression "!" (.literal (.n (if value then 0 else 1))) true)
  | _ => none

/-- First BinaryExpression enter rule (the equality flip): when the
operator is an equality operator and the right operand is pure, swap the
operands.  Purity is the environment predicate `isPure`. -/
def binaryFlipRule (isPure : Node → Bool) (node : Node) : Node :=
  match node with
  | .binaryExpression op left right =>
      if EQUALITY_BINARY_OPERATORS.contains op && isPure right then
        .binaryExpression op right left
      else node
  | _ => node

/-- Second BinaryExpression enter rule: `===` and `!==` lose the trailing
`=` when the analyzer proves both sides share a base type. -/
def binaryLoosenRule (baseTypeStrictlyMatches : Node → Node → Bool) (node : Node) : Node :=
  match node with
  | .binaryExpression op left right =>
      if (op == "===" || op == "!==") && baseTypeStrictlyMatches left right then
        .binaryExpression (op.dropRight 1) left right
      else node
  | _ => node

/-- One step of flipNegation: rewrites the test (`!==` to `===`, `!=` to
`==`, strip a leading `!`) and reports whether the branches must swap. -/
def flipTest (test : Node) : Node × Bool :=
  let s1 : Node × Bool :=
    match test with
    | .binaryExpression op l r =>
        if op == "!==" then (Node.binaryExpression "===" l r, true)
        else if op == "!=" then (Node.binaryExpression "==" l r, true)
        else (test, false)
    | _ => (test, false)
  match s1.1 with
  | .unaryExpression op arg _ =>
      if op == "!" then (arg, true) else s1
  | _ => s1

/-- flipNegation, translated from the helper at the bottom of the plugin:
on a node with test/consequent/alternate (conditional expressions and if
statements), rewrite a negated test and swap the branches; nothing happens
when either branch is absent. -/
def flipNegation (node : Node) : Node :=
  match node with
  | .conditionalExpression test consequent alternate =>
      if !consequent.isNode || !alternate.isNode then node
      else
        let (t2, flip) := flipTest test
        if flip then .conditionalExpression t2 alternate consequent
        else .conditionalExpression t2 consequent alternate
  | .ifStatement test consequent alternate =>
      if !consequent.isNode || !alternate.isNode then node
      else
        let (t2, flip) := flipTest test
        if flip then .ifStatement t2 alternate consequent
        else .ifStatement t2 consequent alternate
  | _ => node

/-- The Block rule (Program and BlockStatement): hoist function
declarations to the front, preserving relative order in both partitions. -/
def hoistFunctionDeclarations (body : List Node) : List Node :=
  let top := body.filter (fun n => n.isFunctionDeclaration)
  let bottom := body.filter (fun n => !n.isFunctionDeclaration)
  top ++ bottom

/-- The WhileStatement rule: `while (test) body` becomes
`for (; test; ) body`. -/
def whileStatementRule (node : Node) : Option Node :=
  match node with
  | .whileStatement test body => some (.forStatement .hole test .hole body)
  | _ => none

/-- First For enter rule: a loop whose body is a block of exactly one
statement gets that statement as its body. -/
def forBodyUnwrapRule (node : Node) : Node :=
  let unwrap (body : Node) : Node :=
    match body with
    | .blockStatement [first] => first
    | _ => body
  match node with
  | .forStatement init test update body => .forStatement init test update (unwrap body)
  | .whileStatement test body => .whileStatement test (unwrap body)
  | _ => node

/-- The if-in-if fold, translated from the second IfStatement exit rule:
whenever the consequent is itself an if statement, the outer test becomes
`test && inner.test` and the consequent becomes the inner consequent.
The source has no guard on the inner alternate. -/
def ifInIfFoldRule (node : Node) : Node :=
  match node with
  | .ifStatement test consequent alternate =>
      match consequent with
      | .ifStatement innerTest innerConsequent _ =>
          .ifStatement (.logicalExpression "&&" test innerTest) innerConsequent alternate
      | _ => node
  | _ => node

/-- coerceIf, translated from the local helper of the first IfStatement
exit rule: a branch that is a block of exactly one statement is replaced
by that statement, unless the statement is a variable declaration whose
kind differs from `let`. -/
def coerceIf (block : Node) : Node :=
  match block with
  | .blockStatement body =>
      match body with
      | [first] =>
          match first with
          | .variableDeclaration kind _ =>
              if kind != "let" then block else first
          | _ => first
      | _ => block
  | _ => block

/-- The expression of an expression statement (`.expression` access). -/
def exprField : Node → Node
  | .expressionStatement e => e
  | _ => .hole

/-- The argument of a return statement (`.argument` access). -/
def retArgField : Node → Node
  | .returnStatement a => a
  | _ => .hole

/-- Outcome of the first IfStatement exit rule: the updated or replacing
node, whether a replacement was returned to the driver, whether the next
sibling was consumed, and the statements inserted after the node. -/
structure IfExitRes where
  node : Node
  replaced : Bool
  removeNext : Bool
  inserted : List Node

/-- The first IfStatement exit rule, translated line by line: coerce both
branches, run flipNegation, then try in order the guarded expression, the
ternary, the dual return, the return-followed-by-return merge, the
return-followed-by-final-expression merge, and the lift of an alternate
after a returning consequent.  `next` and `next2` are the two following
siblings (`hole` when absent), `isCompletion` is the environment's
completion-record answer for this path. -/
def ifExitOneCore (isCompletion : Bool) (node next next2 : Node) : IfExitRes :=
  match node with
  | .ifStatement test0 consequent0 alternate0 =>
      let node1 := flipNegation (.ifStatement test0 (coerceIf consequent0) (coerceIf alternate0))
      match node1 with
      | .ifStatement test consequent alternate =>
          if consequent.isNode && !alternate.isNode &&
              consequent.isExpressionStatement && !isCompletion then
            ⟨.expressionStatement (.logicalExpression "&&" test (exprField consequent)),
              true, false, []⟩
          else if consequent.isExpressionStatement && alternate.isExpressionStatement then
            ⟨.conditionalExpression test (exprField consequent) (exprField alternate),
              true, false, []⟩
          else if consequent.isReturnStatement && alternate.isReturnStatement &&
              !next.isNode then
            ⟨.returnStatement (.conditionalExpression test
                (jsOr (retArgField consequent) VOID_0) (retArgField alternate)),
              true, false, []⟩
          else if consequent.isReturnStatement && !alternate.isNode &&
              next.isReturnStatement then
            ⟨.returnStatement (.conditionalExpression test
                (jsOr (retArgField consequent) VOID_0) (retArgField next)),
              true, true, []⟩
          else if !next2.isNode && consequent.isReturnStatement && !alternate.isNode &&
              next.isExpressionStatement then
            let nextExpr := Node.unaryExpression "void" (exprField next) false
            if (retArgField consequent).isNode then
              ⟨.returnStatement (.conditionalExpression test (retArgField consequent) nextExpr),
                true, true, []⟩
            else
              ⟨.returnStatement (.logicalExpression "||" test nextExpr), true, true, []⟩
          else if consequent.isNode && alternate.isNode &&
              (consequent.isReturnStatement ||
                (consequent.isBlockStatement &&
                  (match consequent with
                   | .blockStatement body => (body.getLastD .hole).isReturnStatement
                   | _ => false))) then
            ⟨.ifStatement test consequent .hole, false, false,
              (match alternate with
               | .blockStatement body => body
               | _ => [alternate])⟩
          else
            ⟨node1, false, false, []⟩
      | _ => ⟨node1, false, false, []⟩
  | _ => ⟨node, false, false, []⟩

/-- Outcome of the third IfStatement exit rule at list level: the updated
statement list and whether the rule asked the driver to revisit the node. -/
structure IfExitThreeRes where
  stmts : List Node
  revisit : Bool

/-- The third IfStatement exit rule, translated from the source: an
argument-less returning consequent with no alternate, inside a function
body list, is inverted and all following siblings become the new
consequent (removed from the list); the node is revisited.  With no
following siblings the node itself is removed. -/
def ifExitThree (inFunction : Bool) (stmts : List Node) (i : Nat) : IfExitThreeRes :=
  match stmts.getD i .hole with
  | .ifStatement test consequent alternate =>
      if alternate.isNode then ⟨stmts, false⟩
      else if !(consequent.isReturnStatement && !(retArgField consequent).isNode) then
        ⟨stmts, false⟩
      else if !inFunction then ⟨stmts, false⟩
      else
        let test2 :=
          match test with
          | .binaryExpression op l r =>
              if op == "!==" then Node.binaryExpression "===" l r
              else if op == "!=" then Node.binaryExpression "==" l r
              else Node.unaryExpression "!" test false
          | .unaryExpression op arg _ =>
              if op == "!" then arg else Node.unaryExpression "!" test false
          | _ => Node.unaryExpression "!" test false
        let following := stmts.drop (i + 1)
        if following.length == 0 then ⟨stmts.take i, false⟩
        else
          let newConsequent :=
            if following.length == 1 then following.getD 0 .hole
            else Node.blockStatement following
          ⟨stmts.take i ++ [.ifStatement test2 newConsequent .hole], true⟩
  | _ => ⟨stmts, false⟩

/-- The sequence value built by the ReturnStatement rule from the previous
expression statement's expression `e` and the return argument `arg`
(`hole` when the return has none), translated from the source: with an
argument the argument is appended after `e` (or pushed onto an existing
sequence); without one, `e` (or the last member of its sequence) is
wrapped in `void`. -/
def returnSeqJoin (e arg : Node) : Node :=
  if arg.isNode then
    match e with
    | .sequenceExpression es => .sequenceExpression (es ++ [arg])
    | _ => .sequenceExpression [e, arg]
  else
    match e with
    | .sequenceExpression es =>
        .sequenceExpression
          (match es.getLast? with
           | some lastE => es.dropLast ++ [Node.unaryExpression "void" lastE false]
           | none => es)
    | _ => .unaryExpression "void" e false

/-- The ReturnStatement rule at list level: when the previous sibling is
an expression statement, it is removed and the return is replaced by a
return of the joined sequence.  Returns `none` when the rule does not
fire. -/
def returnStatementRule (stmts : List Node) (i : Nat) : Option (List Node) :=
  match stmts.getD i .hole with
  | .returnStatement arg =>
      if i == 0 then none
      else
        match stmts.getD (i - 1) .hole with
        | .expressionStatement e =>
            some (stmts.take (i - 1) ++
              Node.returnStatement (returnSeqJoin e arg) :: stmts.drop (i + 1))
        | _ => none
  | _ => none

/-- The absorbing loop of the first VariableDeclaration rule: keep
consuming immediately following same-kind declarations, accumulating
their declarators. -/
def absorbSameKind (kind : String) (decls rest : List Node) : List Node × List Node :=
  match rest with
  | next :: tl =>
      match next with
      | .variableDeclaration k ds =>
          if k == kind then absorbSameKind kind (decls ++ ds) tl
          else (decls, next :: tl)
      | _ => (decls, next :: tl)
  | [] => (decls, [])

/-- The first VariableDeclaration rule at list level: concatenate the
declaration with its following same-kind siblings. -/
def varDeclConcatRule (stmts : List Node) (i : Nat) : List Node :=
  match stmts.getD i .hole with
  | .variableDeclaration kind decls =>
      let (decls2, rest2) := absorbSameKind kind decls (stmts.drop (i + 1))
      stmts.take i ++ Node.variableDeclaration kind decls2 :: rest2
  | _ => stmts

/-- The second VariableDeclaration rule at list level, translated from the
source: when the next sibling is a for statement whose init is a
same-kind variable declaration, prepend the declarators to that init and
remove the declaration.  The source bails when the for has no init (the
init path is not a declaration then). -/
def varDeclForMergeRule (stmts : List Node) (i : Nat) : List Node :=
  match stmts.getD i .hole with
  | .variableDeclaration kind decls =>
      match stmts.getD (i + 1) .hole with
      | .forStatement init test update body =>
          (match init with
           | .variableDeclaration k ds =>
               if k == kind then
                 stmts.take i ++
                   Node.forStatement (.variableDeclaration k (decls ++ ds)) test update body ::
                     stmts.drop (i + 2)
               else stmts
           | _ => stmts)
      | _ => stmts
  | _ => stmts

/-- The second For rule at list level: a for statement whose init is
absent or an expression consumes the previous sibling (a variable
declaration becomes the init when the init is absent; an expression
statement is comma-joined in front of the init).  Returns the updated
list and the index now holding the for statement. -/
def forConsumePrevRule (stmts : List Node) (i : Nat) : List Node × Nat :=
  match stmts.getD i .hole with
  | .forStatement init test update body =>
      if init.isNode && !init.isExpression then (stmts, i)
      else
        let prev := if i == 0 then Node.hole else stmts.getD (i - 1) .hole
        match prev with
        | .variableDeclaration k ds =>
            if !init.isNode then
              (stmts.take (i - 1) ++
                Node.forStatement (.variableDeclaration k ds) test update body ::
                  stmts.drop (i + 1), i - 1)
            else (stmts, i)
        | .expressionStatement e =>
            let newInit :=
              if init.isNode then
                match e with
                | .sequenceExpression es => Node.sequenceExpression (es ++ [init])
                | _ => Node.sequenceExpression [e, init]
              else e
            (stmts.take (i - 1) ++
              Node.forStatement newInit test update body :: stmts.drop (i + 1), i - 1)
        | _ => (stmts, i)
  | _ => (stmts, i)

/-! ## The sequence folder (toMultipleSequenceExpressions). -/

mutual
/-- Size of a node, used as the termination measure of the folder. -/
def nodeSize : Node → Nat
  | .identifier _ => 1
  | .literal _ => 1
  | .unaryExpression _ a _ => 1 + nodeSize a
  | .binaryExpression _ l r => 1 + nodeSize l + nodeSize r
  | .logicalExpression _ l r => 1 + nodeSize l + nodeSize r
  | .conditionalExpression t c a => 1 + nodeSize t + nodeSize c + nodeSize a
  | .sequenceExpression es => 1 + nodeListSize es
  | .callExpression c args => 1 + nodeSize c + nodeListSize args
  | .memberExpression o p _ => 1 + nodeSize o + nodeSize p
  | .property k v _ => 1 + nodeSize k + nodeSize v
  | .functionExpression i ps b => 1 + nodeSize i + nodeListSize ps + nodeSize b
  | .functionDeclaration i ps b => 1 + nodeSize i + nodeListSize ps + nodeSize b
  | .variableDeclaration _ ds => 1 + nodeListSize ds
  | .variableDeclarator i v => 1 + nodeSize i + nodeSize v
  | .expressionStatement e => 1 + nodeSize e
  | .returnStatement a => 1 + nodeSize a
  | .ifStatement t c a => 1 + nodeSize t + nodeSize c + nodeSize a
  | .forStatement i t u b => 1 + nodeSize i + nodeSize t + nodeSize u + nodeSize b
  | .whileStatement t b => 1 + nodeSize t + nodeSize b
  | .blockStatement body => 1 + nodeListSize body
  | .program body => 1 + nodeListSize body
  | .tryStatement b h f => 1 + nodeSize b + nodeSize h + nodeSize f
  | .catchClause p b => 1 + nodeSize p + nodeSize b
  | .hole => 1

/-- Size of a node list (one extra unit per entry, which keeps every
termination obligation linear). -/
def nodeListSize : List Node → Nat
  | [] => 0
  | n :: tl => 1 + nodeSize n + nodeListSize tl
end

/-- Result record of convert: the folded sequence (`hole` when no
expression was accumulated), whether conversion bailed, and at which
index. -/
structure ConvertRes where
  seq : Node
  bailed : Bool
  bailedAtIndex : Nat

/-- The sequence value of an accumulated expression list: a single
expression stays bare, several become a sequence expression, an empty
accumulation is no value (`hole`). -/
def seqFromExprs (exprs : List Node) : Node :=
  match exprs with
  | [] => .hole
  | [e] => e
  | _ => .sequenceExpression exprs

/-- The left-to-right loop of convert, translated from the source: each
node contributes its expression value (expressions themselves, expression
statements, if statements with convertible branches, fully convertible
blocks); the first node that cannot contribute makes the loop bail with
the accumulated prefix and the blocker index. -/
def convertAux (nodes : List Node) (i : Nat) (exprs : List Node) : ConvertRes :=
  match nodes with
  | [] => ⟨seqFromExprs exprs, false, 0⟩
  | node :: rest =>
      if node.isExpression then convertAux rest (i + 1) (exprs ++ [node])
      else
        match node with
        | .expressionStatement e => convertAux rest (i + 1) (exprs ++ [e])
        | .ifStatement test consequent alternate =>
            let cres : Option Node :=
              if consequent.isNode then
                let res := convertAux [consequent] 0 []
                if res.bailed then none else some res.seq
              else some .hole
            (match cres with
             | none => ⟨seqFromExprs exprs, true, i⟩
             | some cval =>
                 let ares : Option Node :=
                   if alternate.isNode then
                     let res := convertAux [alternate] 0 []
                     if res.bailed then none else some res.seq
                   else some .hole
                 match ares with
                 | none => ⟨seqFromExprs exprs, true, i⟩
                 | some aval =>
                     let pushed :=
                       if !aval.isNode then Node.logicalExpression "&&" test cval
                       else if !cval.isNode then Node.logicalExpression "||" test aval
                       else Node.conditionalExpression test cval aval
                     convertAux rest (i + 1) (exprs ++ [pushed]))
        | .blockStatement body =>
            let res := convertAux body 0 []
            if res.bailed then ⟨seqFromExprs exprs, true, i⟩
            else convertAux rest (i + 1) (exprs ++ [res.seq])
        | _ => ⟨seqFromExprs exprs, true, i⟩
termination_by nodeListSize nodes
decreasing_by
  all_goals simp only [nodeListSize, nodeSize]
  all_goals omega

/-- convert, the entry point of the folding loop. -/
def convert (nodes : List Node) : ConvertRes :=
  convertAux nodes 0 []

/-- toMultipleSequenceExpressions, translated from the source: fold the
statement list with convert; on a bail emit the accumulated prefix as an
expression statement, keep the blocker verbatim, and restart on the
remaining statements. -/
def toMultipleSequenceExpressions (statements : List Node) : List Node :=
  let res := convert statements
  let out1 := if res.seq.isNode then [Node.expressionStatement res.seq] else []
  if res.bailed then
    let blocker := statements.getD res.bailedAtIndex .hole
    let out2 := out1 ++ (if blocker.isNode then [blocker] else [])
    if _h : (statements.drop (res.bailedAtIndex + 1)).length = 0 then out2
    else out2 ++ toMultipleSequenceExpressions (statements.drop (res.bailedAtIndex + 1))
  else out1
termination_by statements.length
decreasing_by
  simp only [List.length_drop] at *
  omega

/-! ## Specification-side description of the folder (claim C9). -/

mutual
/-- Modelled from the spec: the expression a single statement contributes
to the folded sequence — an expression contributes itself, an expression
statement its expression, an if statement with expressible branches a
conditional (or a short-circuit expression when a branch is absent), a
fully expressible block its folded sequence; `none` marks a
non-expressible statement (a blocker). -/
def specExprOf (n : Node) : Option Node :=
  if n.isExpression then some n
  else
    match n with
    | .expressionStatement e => some e
    | .ifStatement test consequent alternate =>
        (match (if consequent.isNode then specExprOf consequent else some Node.hole) with
         | none => none
         | some cval =>
             match (if alternate.isNode then specExprOf alternate else some Node.hole) with
             | none => none
             | some aval =>
                 some (if !aval.isNode then Node.logicalExpression "&&" test cval
                       else if !cval.isNode then Node.logicalExpression "||" test aval
                       else Node.conditionalExpression test cval aval))
    | .blockStatement body =>
        (match specContribs body with
         | (cs, none) => some (seqFromExprs cs)
         | (_, some _) => none)
    | _ => none
termination_by 2 * nodeSize n
decreasing_by
  all_goals simp only [nodeSize, nodeListSize]
  all_goals omega

/-- Modelled from the spec: scan a statement list left to right, returning
the contributions of the expressible prefix together with the index of the
first blocker when there is one. -/
def specContribs (l : List Node) : List Node × Option Nat :=
  match l with
  | [] => ([], none)
  | hd :: rest =>
      match specExprOf hd with
      | none => ([], some 0)
      | some e => (e :: (specContribs rest).1, ((specContribs rest).2).map (· + 1))
termination_by 2 * nodeListSize l + 1
decreasing_by
  all_goals simp only [nodeSize, nodeListSize]
  all_goals omega
end

/-- The spec-side result of one convert run: the folded prefix, and the
bail flag and blocker index recovered from the scan. -/
def specConvert (nodes : List Node) (i : Nat) (exprs : List Node) : ConvertRes :=
  match specContribs nodes with
  | (cs, none) => ⟨seqFromExprs (exprs ++ cs), false, 0⟩
  | (cs, some k) => ⟨seqFromExprs (exprs ++ cs), true, i + k⟩

/-- Modelled from the spec (claim C9 wording): the folder's specification.
Fold the expressible prefix into one expression statement, keep the first
blocker verbatim, restart after the blocker; statement order is
preserved. -/
def foldSpec (statements : List Node) : List Node :=
  match specContribs statements with
  | (cs, none) =>
      if (seqFromExprs cs).isNode then [Node.expressionStatement (seqFromExprs cs)] else []
  | (cs, some k) =>
      (if (seqFromExprs cs).isNode then [Node.expressionStatement (seqFromExprs cs)] else []) ++
      (if (statements.getD k .hole).isNode then [statements.getD k .hole] else []) ++
      (if _h : (statements.drop (k + 1)).length = 0 then []
       else foldSpec (statements.drop (k + 1)))
termination_by statements.length
decreasing_by
  simp only [List.length_drop] at *
  omega

/-! ## The traversal driver.

The driver itself is not part of src/simplify-plugin/index.js (the plugin
hands its visitor table to the host); it is modelled from the spec:
depth-first left-to-right traversal, enter actions in registration order,
then children, then exit actions; a returned replacement is substituted
and revisited from the enter phase; removing a list member shifts the
later siblings left; `Block` matches Program and BlockStatement and `For`
matches the loop statements.  Fuel bounds the in-place revisits (the
iteration guard of section 5); a structurally identical replacement is
treated as quiescence (section 4.5) rather than revisited forever. -/

mutual
/-- Structural equality of nodes (the driver's quiescence test). -/
def nodeEq : Node → Node → Bool
  | .identifier a, .identifier b => a == b
  | .literal a, .literal b => a == b
  | .unaryExpression o1 a1 p1, .unaryExpression o2 a2 p2 =>
      o1 == o2 && nodeEq a1 a2 && p1 == p2
  | .binaryExpression o1 l1 r1, .binaryExpression o2 l2 r2 =>
      o1 == o2 && nodeEq l1 l2 && nodeEq r1 r2
  | .logicalExpression o1 l1 r1, .logicalExpression o2 l2 r2 =>
      o1 == o2 && nodeEq l1 l2 && nodeEq r1 r2
  | .conditionalExpression t1 c1 a1, .conditionalExpression t2 c2 a2 =>
      nodeEq t1 t2 && nodeEq c1 c2 && nodeEq a1 a2
  | .sequenceExpression e1, .sequenceExpression e2 => nodeListEq e1 e2
  | .callExpression c1 a1, .callExpression c2 a2 => nodeEq c1 c2 && nodeListEq a1 a2
  | .memberExpression o1 p1 c1, .memberExpression o2 p2 c2 =>
      nodeEq o1 o2 && nodeEq p1 p2 && c1 == c2
  | .property k1 v1 c1, .property k2 v2 c2 => nodeEq k1 k2 && nodeEq v1 v2 && c1 == c2
  | .functionExpression i1 p1 b1, .functionExpression i2 p2 b2 =>
      nodeEq i1 i2 && nodeListEq p1 p2 && nodeEq b1 b2
  | .functionDeclaration i1 p1 b1, .functionDeclaration i2 p2 b2 =>
      nodeEq i1 i2 && nodeListEq p1 p2 && nodeEq b1 b2
  | .variableDeclaration k1 d1, .variableDeclaration k2 d2 => k1 == k2 && nodeListEq d1 d2
  | .variableDeclarator i1 v1, .variableDeclarator i2 v2 => nodeEq i1 i2 && nodeEq v1 v2
  | .expressionStatement e1, .expressionStatement e2 => nodeEq e1 e2
  | .returnStatement a1, .returnStatement a2 => nodeEq a1 a2
  | .ifStatement t1 c1 a1, .ifStatement t2 c2 a2 =>
      nodeEq t1 t2 && nodeEq c1 c2 && nodeEq a1 a2
  | .forStatement i1 t1 u1 b1, .forStatement i2 t2 u2 b2 =>
      nodeEq i1 i2 && nodeEq t1 t2 && nodeEq u1 u2 && nodeEq b1 b2
  | .whileStatement t1 b1, .whileStatement t2 b2 => nodeEq t1 t2 && nodeEq b1 b2
  | .blockStatement b1, .blockStatement b2 => nodeListEq b1 b2
  | .program b1, .program b2 => nodeListEq b1 b2
  | .tryStatement b1 h1 f1, .tryStatement b2 h2 f2 =>
      nodeEq b1 b2 && nodeEq h1 h2 && nodeEq f1 f2
  | .catchClause p1 b1, .catchClause p2 b2 => nodeEq p1 p2 && nodeEq b1 b2
  | .hole, .hole => true
  | _, _ => false

/-- Structural equality of node lists. -/
def nodeListEq : List Node → List Node → Bool
  | [], [] => true
  | a :: as, b :: bs => nodeEq a b && nodeListEq as bs
  | _, _ => false
end

/-- The environment predicates required by the pass (spec sections 4.2 and
6): purity, base-type agreement, identifier validity, and the
completion-record policy (environment-defined; a constant here). -/
structure Preds where
  isPure : Node → Bool
  baseTypeStrictlyMatches : Node → Node → Bool
  isValidIdent : String → Bool
  isCompletionRecord : Bool

/-- Context a parent passes when visiting a child: whether an identifier
child is in referenced position, whether the parent is an expression
statement or sequence expression (IIFE rule), whether a block child must
stay a block (function body, try, catch), and whether the parent is a
function (the block's list is then a function body list). -/
structure PCtx where
  referenced : Bool
  parentIsExprStmtOrSeq : Bool
  blockMustStay : Bool
  parentIsFunction : Bool

mutual
/-- Visit one node in a non-list slot: enter actions, children, exit
actions, with replacements revisited from the enter phase.  Modelled from
the spec (section 4.1) over the source's visitor table. -/
def visitNode (P : Preds) (fuel : Nat) (ctx : PCtx) (n : Node) : Node :=
  match fuel with
  | 0 => n
  | fuel' + 1 =>
      match n with
      | .identifier _ =>
          if ctx.referenced then
            match referencedIdentifierRule n with
            | some r => visitNode P fuel' ctx r
            | none => n
          else n
      | .literal _ =>
          (match literalRule n with
           | some r => visitNode P fuel' ctx r
           | none => n)
      | .callExpression _ _ =>
          (match callExpressionRule ctx.parentIsExprStmtOrSeq n with
           | some r => visitNode P fuel' ctx r
           | none => visitChildren P fuel' ctx n)
      | .logicalExpression _ _ _ =>
          visitChildren P fuel' ctx (logicalExpressionRule n)
      | .binaryExpression _ _ _ =>
          visitChildren P fuel' ctx
            (binaryLoosenRule P.baseTypeStrictlyMatches (binaryFlipRule P.isPure n))
      | .conditionalExpression _ _ _ =>
          visitChildren P fuel' ctx (flipNegation n)
      | .blockStatement body =>
          let n1 := Node.blockStatement (hoistFunctionDeclarations body)
          let sts := toMultipleSequenceExpressions (hoistFunctionDeclarations body)
          if sts.length == 0 then visitChildren P fuel' ctx n1
          else
            let r :=
              if sts.length > 1 || ctx.blockMustStay then Node.blockStatement sts
              else sts.getD 0 .hole
            if nodeEq r n1 then visitChildren P fuel' ctx n1
            else visitNode P fuel' ctx r
      | .program body =>
          let b1 := hoistFunctionDeclarations body
          let sts := toMultipleSequenceExpressions b1
          Node.program (visitStmts P fuel' false (if sts.length == 0 then b1 else sts) 0)
      | .ifStatement _ _ _ =>
          let n1 := visitChildren P fuel' ctx n
          let res := ifExitOneCore P.isCompletionRecord n1 .hole .hole
          if res.replaced then visitNode P fuel' ctx res.node
          else
            let n2 :=
              if res.inserted.isEmpty then res.node
              else Node.blockStatement (res.node :: res.inserted)
            ifInIfFoldRule n2
      | .whileStatement _ _ =>
          let n1 := forBodyUnwrapRule n
          (match whileStatementRule n1 with
           | some r => visitNode P fuel' ctx r
           | none => visitChildren P fuel' ctx n1)
      | .forStatement _ _ _ _ =>
          visitChildren P fuel' ctx (forBodyUnwrapRule n)
      | .property _ _ _ =>
          propertyExitRule P.isValidIdent (visitChildren P fuel' ctx n)
      | .memberExpression _ _ _ =>
          memberExitRule P.isValidIdent (visitChildren P fuel' ctx n)
      | _ => visitChildren P fuel' ctx n
termination_by structural fuel

/-- Visit the children of a node in source order, assigning each child its
context. -/
def visitChildren (P : Preds) (fuel : Nat) (ctx : PCtx) (n : Node) : Node :=
  match fuel with
  | 0 => n
  | fuel' + 1 =>
      match n with
      | .unaryExpression op a p =>
          .unaryExpression op (visitNode P fuel' ⟨true, false, false, false⟩ a) p
      | .binaryExpression op l r =>
          .binaryExpression op (visitNode P fuel' ⟨true, false, false, false⟩ l)
            (visitNode P fuel' ⟨true, false, false, false⟩ r)
      | .logicalExpression op l r =>
          .logicalExpression op (visitNode P fuel' ⟨true, false, false, false⟩ l)
            (visitNode P fuel' ⟨true, false, false, false⟩ r)
      | .conditionalExpression t c a =>
          .conditionalExpression (visitNode P fuel' ⟨true, false, false, false⟩ t)
            (visitNode P fuel' ⟨true, false, false, false⟩ c)
            (visitNode P fuel' ⟨true, false, false, false⟩ a)
      | .sequenceExpression es =>
          .sequenceExpression (es.map (fun e => visitNode P fuel' ⟨true, true, false, false⟩ e))
      | .callExpression c args =>
          .callExpression (visitNode P fuel' ⟨true, false, false, false⟩ c)
            (args.map (fun a => visitNode P fuel' ⟨true, false, false, false⟩ a))
      | .memberExpression o pr comp =>
          .memberExpression (visitNode P fuel' ⟨true, false, false, false⟩ o)
            (visitNode P fuel' ⟨comp, false, false, false⟩ pr) comp
      | .property k v comp =>
          .property (visitNode P fuel' ⟨comp, false, false, false⟩ k)
            (visitNode P fuel' ⟨true, false, false, false⟩ v) comp
      | .functionExpression i ps b =>
          .functionExpression (visitNode P fuel' ⟨false, false, false, false⟩ i)
            (ps.map (fun x => visitNode P fuel' ⟨false, false, false, false⟩ x))
            (visitNode P fuel' ⟨false, false, true, true⟩ b)
      | .functionDeclaration i ps b =>
          .functionDeclaration (visitNode P fuel' ⟨false, false, false, false⟩ i)
            (ps.map (fun x => visitNode P fuel' ⟨false, false, false, false⟩ x))
            (visitNode P fuel' ⟨false, false, true, true⟩ b)
      | .variableDeclaration k ds =>
          .variableDeclaration k (ds.map (fun d => visitNode P fuel' ⟨false, false, false, false⟩ d))
      | .variableDeclarator i v =>
          .variableDeclarator (visitNode P fuel' ⟨false, false, false, false⟩ i)
            (if v.isNode then visitNode P fuel' ⟨true, false, false, false⟩ v else v)
      | .expressionStatement e =>
          .expressionStatement (visitNode P fuel' ⟨true, true, false, false⟩ e)
      | .returnStatement a =>
          .returnStatement (if a.isNode then visitNode P fuel' ⟨true, false, false, false⟩ a else a)
      | .ifStatement t c a =>
          .ifStatement (visitNode P fuel' ⟨true, false, false, false⟩ t)
            (visitNode P fuel' ⟨false, false, false, false⟩ c)
            (if a.isNode then visitNode P fuel' ⟨false, false, false, false⟩ a else a)
      | .forStatement i t u b =>
          .forStatement (if i.isNode then visitNode P fuel' ⟨true, false, false, false⟩ i else i)
            (if t.isNode then visitNode P fuel' ⟨true, false, false, false⟩ t else t)
            (if u.isNode then visitNode P fuel' ⟨true, false, false, false⟩ u else u)
            (visitNode P fuel' ⟨false, false, false, false⟩ b)
      | .whileStatement t b =>
          .whileStatement (visitNode P fuel' ⟨true, false, false, false⟩ t)
            (visitNode P fuel' ⟨false, false, false, false⟩ b)
      | .blockStatement body =>
          .blockStatement (visitStmts P fuel' ctx.parentIsFunction body 0)
      | .program body =>
          .program (visitStmts P fuel' false body 0)
      | .tryStatement b h f =>
          .tryStatement (visitNode P fuel' ⟨false, false, true, false⟩ b)
            (if h.isNode then visitNode P fuel' ⟨false, false, false, false⟩ h else h)
            (if f.isNode then visitNode P fuel' ⟨false, false, true, false⟩ f else f)
      | .catchClause p b =>
          .catchClause (visitNode P fuel' ⟨false, false, false, false⟩ p)
            (visitNode P fuel' ⟨false, false, true, false⟩ b)
      | _ => n
termination_by structural fuel

/-- Process a statement list from index `i`, running each statement's
enter actions (including the sibling-mutating ones), its children, and
its exit actions; removals shift the later siblings left and keep the
cursor on the successor.  `inFunc` records that this list is the body of
a block directly under a function. -/
def visitStmts (P : Preds) (fuel : Nat) (inFunc : Bool) (stmts : List Node) (i : Nat) : List Node :=
  match fuel with
  | 0 => stmts
  | fuel' + 1 =>
      if i ≥ stmts.length then stmts
      else
        let n := stmts.getD i .hole
        match n with
        | .variableDeclaration _ _ =>
            let s1 := varDeclConcatRule stmts i
            let s2 := varDeclForMergeRule s1 i
            if s2.length != s1.length then visitStmts P fuel' inFunc s2 i
            else
              let s3 := s2.set i (visitChildren P fuel' ⟨false, false, false, false⟩ (s2.getD i .hole))
              visitStmts P fuel' inFunc s3 (i + 1)
        | .forStatement _ _ _ _ =>
            let p1 := forConsumePrevRule (stmts.set i (forBodyUnwrapRule n)) i
            let s3 := p1.1.set p1.2
              (visitChildren P fuel' ⟨false, false, false, false⟩ (p1.1.getD p1.2 .hole))
            visitStmts P fuel' inFunc s3 (p1.2 + 1)
        | .whileStatement _ _ =>
            let n1 := forBodyUnwrapRule n
            (match whileStatementRule n1 with
             | some r => visitStmts P fuel' inFunc (stmts.set i r) i
             | none =>
                 visitStmts P fuel' inFunc
                   (stmts.set i (visitChildren P fuel' ⟨false, false, false, false⟩ n1)) (i + 1))
        | .returnStatement _ =>
            (match returnStatementRule stmts i with
             | some s2 => visitStmts P fuel' inFunc s2 (i - 1)
             | none =>
                 let s3 := stmts.set i (visitChildren P fuel' ⟨false, false, false, false⟩ n)
                 visitStmts P fuel' inFunc s3 (i + 1))
        | .blockStatement body =>
            let n1 := Node.blockStatement (hoistFunctionDeclarations body)
            let sts := toMultipleSequenceExpressions (hoistFunctionDeclarations body)
            if sts.length == 0 then
              let s3 := stmts.set i (visitChildren P fuel' ⟨false, false, false, false⟩ n1)
              visitStmts P fuel' inFunc s3 (i + 1)
            else
              let r := if sts.length > 1 then Node.blockStatement sts else sts.getD 0 .hole
              if nodeEq r n1 then
                let s3 := stmts.set i (visitChildren P fuel' ⟨false, false, false, false⟩ n1)
                visitStmts P fuel' inFunc s3 (i + 1)
              else visitStmts P fuel' inFunc (stmts.set i r) i
        | .ifStatement _ _ _ =>
            let n1 := visitChildren P fuel' ⟨false, false, false, false⟩ n
            let res := ifExitOneCore P.isCompletionRecord n1
              (stmts.getD (i + 1) .hole) (stmts.getD (i + 2) .hole)
            if res.replaced then
              let s2 := stmts.take i ++
                res.node :: stmts.drop (i + (if res.removeNext then 2 else 1))
              visitStmts P fuel' inFunc s2 i
            else
              let s2 := stmts.take i ++ (res.node :: res.inserted) ++ stmts.drop (i + 1)
              let s3 := s2.set i (ifInIfFoldRule res.node)
              let r3 := ifExitThree inFunc s3 i
              if r3.revisit then visitStmts P fuel' inFunc r3.stmts i
              else visitStmts P fuel' inFunc r3.stmts (i + 1)
        | _ =>
            let s3 := stmts.set i (visitNode P fuel' ⟨true, false, false, false⟩ n)
            visitStmts P fuel' inFunc s3 (i + 1)
termination_by structural fuel
end

/-- The simplify pass: one driven traversal of the tree with the source's
visitor table, with `fuel` bounding in-place revisits. -/
def simplifyFuel (P : Preds) (fuel : Nat) (ast : Node) : Node :=
  visitNode P fuel ⟨false, false, false, false⟩ ast

/-- simplify, the single operation of the component (spec section 6). -/
def simplify (P : Preds) (ast : Node) : Node := simplifyFuel P 64 ast

/-! ## A concrete environment (spec-modelled predicates). -/

/-- Modelled from the spec: the purity predicate of the external scope
analyzer — evaluation with no side effects that cannot throw.  Literals
are pure, and so are basic unary operators over pure operands; everything
else is conservatively impure. -/
def specIsPure : Node → Bool
  | .literal _ => true
  | .unaryExpression op a _ =>
      (op == "!" || op == "void" || op == "-" || op == "+" || op == "typeof") && specIsPure a
  | _ => false

/-- Primitive type tag of a literal value. -/
def litTag : LitVal → Nat
  | .b _ => 0
  | .n _ => 1
  | .s _ => 2
  | .nul => 3

/-- Modelled from the spec: the analyzer proves both expressions always
produce values of the same primitive type tag; decidable here exactly for
two literals. -/
def specBaseTypeMatches (a b : Node) : Bool :=
  match a, b with
  | .literal x, .literal y => litTag x == litTag y
  | _, _ => false

/-- Modelled from the spec: validity of a string as an identifier under
the target language grammar (letters, digits, underscore, dollar; no
leading digit). -/
def specIsValidIdent (s : String) : Bool :=
  s.length > 0 &&
  s.toList.all (fun c => c.isAlphanum || c == '_' || c == '$') &&
  !(s.toList.headD '0').isDigit

/-- The concrete environment used by the closed evaluations: the
spec-modelled predicates, with the completion-record policy that
statement values are not observable. -/
def envPreds : Preds := ⟨specIsPure, specBaseTypeMatches, specIsValidIdent, false⟩

/-! ## A small evaluator (spec-modelled observation semantics). -/

/-- Runtime values of the evaluated fragment: booleans and undefined. -/
inductive Value where
  | bv (x : Bool)
  | undef
deriving DecidableEq, Repr

/-- Truthiness of a value. -/
def Value.truthy : Value → Bool
  | .bv x => x
  | .undef => false

/-- Modelled from the spec: evaluation of the expression fragment used by
the counterexamples.  Identifiers read booleans from the environment, `!`
negates, `&&` and `||` short-circuit, conditionals branch, and calling an
identifier with no arguments records one external observation (the
callee's name) and yields undefined.  `none` on nodes outside the
fragment. -/
def evalExpr (env : String → Bool) : Node → Option (Value × List String)
  | .identifier name => some (.bv (env name), [])
  | .literal (.b x) => some (.bv x, [])
  | .unaryExpression op a _ =>
      if op == "!" then
        match evalExpr env a with
        | some (v, o) => some (.bv (!v.truthy), o)
        | none => none
      else none
  | .logicalExpression op l r =>
      (match evalExpr env l with
       | some (vl, ol) =>
           if op == "&&" then
             if vl.truthy then
               match evalExpr env r with
               | some (vr, og) => some (vr, ol ++ og)
               | none => none
             else some (vl, ol)
           else if op == "||" then
             if vl.truthy then some (vl, ol)
             else
               match evalExpr env r with
               | some (vr, og) => some (vr, ol ++ og)
               | none => none
           else none
       | none => none)
  | .conditionalExpression t c a =>
      (match evalExpr env t with
       | some (vt, ot) =>
           if vt.truthy then
             match evalExpr env c with
             | some (vc, oc) => some (vc, ot ++ oc)
             | none => none
           else
             match evalExpr env a with
             | some (va, oa) => some (va, ot ++ oa)
             | none => none
       | none => none)
  | .callExpression (.identifier f) [] => some (.undef, [f])
  | _ => none

/-- Modelled from the spec: evaluation of a statement of the fragment,
returning its external observations. -/
def evalStmt (env : String → Bool) : Node → Option (List String)
  | .expressionStatement e => (evalExpr env e).map (·.2)
  | .ifStatement t c a =>
      (match evalExpr env t with
       | some (vt, ot) =>
           if vt.truthy then (evalStmt env c).map (ot ++ ·)
           else
             match a with
             | .hole => some ot
             | _ => (evalStmt env a).map (ot ++ ·)
       | none => none)
  | _ => none

/-- Observations of a statement list, in order. -/
def evalStmts (env : String → Bool) : List Node → Option (List String)
  | [] => some []
  | s :: rest =>
      match evalStmt env s, evalStmts env rest with
      | some o1, some o2 => some (o1 ++ o2)
      | _, _ => none

/-- Observations of a whole program. -/
def evalProgram (env : String → Bool) : Node → Option (List String)
  | .program body => evalStmts env body
  | _ => none

/-! ## Concrete input programs used by the closed evaluations. -/

/-- The program `if (!a && b) c(); else d();`. -/
def tIf : Node :=
  .program [.ifStatement
    (.logicalExpression "&&" (.unaryExpression "!" (.identifier "a") true) (.identifier "b"))
    (.expressionStatement (.callExpression (.identifier "c") []))
    (.expressionStatement (.callExpression (.identifier "d") []))]

/-- The program `1 === 2;`. -/
def tEq : Node :=
  .program [.expressionStatement
    (.binaryExpression "===" (.literal (.n 1)) (.literal (.n 2)))]

/-- The environment in which every identifier reads true. -/
def envTrue : String → Bool := fun _ => true

/-- The declaration `let a = 1`. -/
def letDeclA : Node := .variableDeclaration "let" [.variableDeclarator (.identifier "a") (.literal (.n 1))]

/-- The declaration `var a = 1`. -/
def varDeclA : Node := .variableDeclaration "var" [.variableDeclarator (.identifier "a") (.literal (.n 1))]

/-- The two-statement list `var a = 1; for (;;) g();` (a for statement
with no init). -/
def c6ExList : List Node :=
  [varDeclA,
   .forStatement .hole .hole .hole (.expressionStatement (.callExpression (.identifier "g") []))]

/-- The claim's join for the ReturnStatement rule (claim C10 wording):
with an argument, the previous expression is comma-joined before the
argument (appending into an existing sequence); without one, the previous
expression — or the last member of its sequence — is wrapped in `void`
and returned. -/
def returnJoinClaim (e arg : Node) : Node :=
  if arg.isNode then
    match e with
    | .sequenceExpression es => .sequenceExpression (es ++ [arg])
    | _ => .sequenceExpression [e, arg]
  else
    match e with
    | .sequenceExpression es =>
        .sequenceExpression
          (match es.getLast? with
           | some lastE => es.dropLast ++ [Node.unaryExpression "void" lastE false]
           | none => es)
    | _ => .unaryExpression "void" e false

/-! ## Folder equivalence lemmas (used for claim C9 and to evaluate the
driver on the concrete programs). -/

theorem isNode_hole : Node.hole.isNode = false := rfl

theorem convertAux_nil (i : Nat) (exprs : List Node) :
    convertAux [] i exprs = ⟨seqFromExprs exprs, false, 0⟩ := by
  rw [convertAux.eq_def]

theorem specContribs_nil : specContribs [] = ([], none) := by
  rw [specContribs.eq_def]

theorem specContribs_cons (hd : Node) (rest : List Node) :
    specContribs (hd :: rest) =
      (match specExprOf hd with
       | none => ([], some 0)
       | some e => (e :: (specContribs rest).1, ((specContribs rest).2).map (· + 1))) := by
  rw [specContribs.eq_def]

theorem specConvert_single (c : Node) :
    specConvert [c] 0 [] =
      (match specExprOf c with
       | none => ⟨Node.hole, true, 0⟩
       | some v => ⟨v, false, 0⟩) := by
  cases hc : specExprOf c <;>
    simp [specConvert, specContribs_cons, specContribs_nil, hc, seqFromExprs]

theorem specConvert_cons_some (hd : Node) (tl : List Node) (i : Nat) (exprs : List Node)
    (e : Node) (he : specExprOf hd = some e) :
    specConvert (hd :: tl) i exprs = specConvert tl (i + 1) (exprs ++ [e]) := by
  rcases hsc : specContribs tl with ⟨cs, b⟩
  cases b with
  | none => simp [specConvert, specContribs_cons, he, hsc]
  | some k =>
      simp [specConvert, specContribs_cons, he, hsc]
      omega

theorem specConvert_cons_none (hd : Node) (tl : List Node) (i : Nat) (exprs : List Node)
    (he : specExprOf hd = none) :
    specConvert (hd :: tl) i exprs = ⟨seqFromExprs exprs, true, i⟩ := by
  simp [specConvert, specContribs_cons, he]


set_option maxHeartbeats 1000000 in
theorem convertAux_eq_aux :
    ∀ (m : Nat) (nodes : List Node), nodeListSize nodes ≤ m →
      ∀ (i : Nat) (exprs : List Node), convertAux nodes i exprs = specConvert nodes i exprs := by
  intro m
  induction m with
  | zero =>
      intro nodes h i exprs
      cases nodes with
      | nil => rw [convertAux_nil]; simp [specConvert, specContribs_nil]
      | cons hd tl => simp [nodeListSize] at h
  | succ m ih =>
      intro nodes h i exprs
      cases nodes with
      | nil => rw [convertAux_nil]; simp [specConvert, specContribs_nil]
      | cons hd tl =>
          have htl : nodeListSize tl ≤ m := by
            simp [nodeListSize] at h
            omega
          rw [convertAux.eq_def]
          by_cases hex : hd.isExpression = true
          · have he : specExprOf hd = some hd := by
              rw [specExprOf.eq_def]
              simp [hex]
            rw [specConvert_cons_some hd tl i exprs hd he]
            simp only [hex, if_true]
            exact ih tl htl (i + 1) (exprs ++ [hd])
          · cases hd with
            | identifier x => exact absurd rfl hex
            | literal x => exact absurd rfl hex
            | unaryExpression o a p => exact absurd rfl hex
            | binaryExpression o l r => exact absurd rfl hex
            | logicalExpression o l r => exact absurd rfl hex
            | conditionalExpression t c a => exact absurd rfl hex
            | sequenceExpression es => exact absurd rfl hex
            | callExpression cal args => exact absurd rfl hex
            | memberExpression o p cm => exact absurd rfl hex
            | functionExpression fid ps b => exact absurd rfl hex
            | expressionStatement e =>
                have he : specExprOf (Node.expressionStatement e) = some e := by
                  rw [specExprOf.eq_def]
                  simp [Node.isExpression]
                rw [specConvert_cons_some _ tl i exprs e he]
                simp only [Node.isExpression, Bool.false_eq_true, if_false]
                exact ih tl htl (i + 1) (exprs ++ [e])
            | ifStatement t c a =>
                have hsz : nodeListSize [c] ≤ m ∧ nodeListSize [a] ≤ m := by
                  simp [nodeListSize, nodeSize] at h ⊢
                  omega
                have hic : convertAux [c] 0 [] =
                    (match specExprOf c with
                     | none => (⟨Node.hole, true, 0⟩ : ConvertRes)
                     | some v => ⟨v, false, 0⟩) := by
                  rw [ih [c] hsz.1 0 []]
                  exact specConvert_single c
                have hia : convertAux [a] 0 [] =
                    (match specExprOf a with
                     | none => (⟨Node.hole, true, 0⟩ : ConvertRes)
                     | some v => ⟨v, false, 0⟩) := by
                  rw [ih [a] hsz.2 0 []]
                  exact specConvert_single a
                have hse : specExprOf (Node.ifStatement t c a) =
                    (match (if c.isNode then specExprOf c else some Node.hole) with
                     | none => none
                     | some cval =>
                         match (if a.isNode then specExprOf a else some Node.hole) with
                         | none => none
                         | some aval =>
                             some (if !aval.isNode then Node.logicalExpression "&&" t cval
                                   else if !cval.isNode then Node.logicalExpression "||" t aval
                                   else Node.conditionalExpression t cval aval)) := by
                  rw [specExprOf.eq_def]
                  simp [Node.isExpression]
                by_cases hcn : c.isNode = true
                · cases hcc : specExprOf c with
                  | none =>
                      have he : specExprOf (Node.ifStatement t c a) = none := by
                        rw [hse]
                        simp [hcn, hcc]
                      rw [specConvert_cons_none _ tl i exprs he]
                      simp [Node.isExpression, hcn, hic, hcc]
                  | some cv =>
                      by_cases han : a.isNode = true
                      · cases hca : specExprOf a with
                        | none =>
                            have he : specExprOf (Node.ifStatement t c a) = none := by
                              rw [hse]
                              simp [hcn, hcc, han, hca]
                            rw [specConvert_cons_none _ tl i exprs he]
                            simp [Node.isExpression, hcn, han, hic, hia, hcc, hca]
                        | some av =>
                            have he : specExprOf (Node.ifStatement t c a) =
                                some (if !av.isNode then Node.logicalExpression "&&" t cv
                                      else if !cv.isNode then Node.logicalExpression "||" t av
                                      else Node.conditionalExpression t cv av) := by
                              rw [hse]
                              simp [hcn, hcc, han, hca]
                            rw [specConvert_cons_some _ tl i exprs _ he]
                            simp only [Node.isExpression, Bool.false_eq_true, if_false,
                              hic, hia, hcc, hca, hcn, han, if_true]
                            exact ih tl htl (i + 1) _
                      · have hah : a = Node.hole := by
                          cases a <;> first | rfl | simp [Node.isNode] at han
                        subst hah
                        have he : specExprOf (Node.ifStatement t c Node.hole) =
                            some (Node.logicalExpression "&&" t cv) := by
                          rw [hse]
                          simp [hcn, hcc, isNode_hole]
                        rw [specConvert_cons_some _ tl i exprs _ he]
                        simp only [Node.isExpression, Bool.false_eq_true, if_false,
                          hic, hcc, hcn, if_true, isNode_hole]
                        exact ih tl htl (i + 1) _
                · have hch : c = Node.hole := by
                    cases c <;> first | rfl | simp [Node.isNode] at hcn
                  subst hch
                  by_cases han : a.isNode = true
                  · cases hca : specExprOf a with
                    | none =>
                        have he : specExprOf (Node.ifStatement t Node.hole a) = none := by
                          rw [hse]
                          simp [han, hca, isNode_hole]
                        rw [specConvert_cons_none _ tl i exprs he]
                        simp [Node.isExpression, han, hia, hca, isNode_hole]
                    | some av =>
                        have he : specExprOf (Node.ifStatement t Node.hole a) =
                            some (if !av.isNode then Node.logicalExpression "&&" t Node.hole
                                  else Node.logicalExpression "||" t av) := by
                          rw [hse]
                          simp [han, hca, isNode_hole]
                        rw [specConvert_cons_some _ tl i exprs _ he]
                        simp only [Node.isExpression, Bool.false_eq_true, if_false,
                          hia, hca, han, if_true, isNode_hole]
                        exact ih tl htl (i + 1) _
                  · have hah : a = Node.hole := by
                      cases a <;> first | rfl | simp [Node.isNode] at han
                    subst hah
                    have he : specExprOf (Node.ifStatement t Node.hole Node.hole) =
                        some (Node.logicalExpression "&&" t Node.hole) := by
                      rw [hse]
                      simp [isNode_hole]
                    rw [specConvert_cons_some _ tl i exprs _ he]
                    simp only [Node.isExpression, Bool.false_eq_true, if_false,
                      if_true, isNode_hole]
                    exact ih tl htl (i + 1) _
            | blockStatement body =>
                have hsz : nodeListSize body ≤ m := by
                  simp [nodeListSize, nodeSize] at h ⊢
                  omega
                have hib : convertAux body 0 [] = specConvert body 0 [] := ih body hsz 0 []
                rcases hsb : specContribs body with ⟨cs, b⟩
                cases b with
                | none =>
                    have he : specExprOf (Node.blockStatement body) = some (seqFromExprs cs) := by
                      rw [specExprOf.eq_def]
                      simp [Node.isExpression, hsb]
                    rw [specConvert_cons_some _ tl i exprs _ he]
                    have hres : convertAux body 0 [] = ⟨seqFromExprs cs, false, 0⟩ := by
                      rw [hib]
                      simp [specConvert, hsb]
                    simp only [Node.isExpression, Bool.false_eq_true, if_false, hres]
                    exact ih tl htl (i + 1) _
                | some k =>
                    have he : specExprOf (Node.blockStatement body) = none := by
                      rw [specExprOf.eq_def]
                      simp [Node.isExpression, hsb]
                    rw [specConvert_cons_none _ tl i exprs he]
                    have hres : convertAux body 0 [] = ⟨seqFromExprs cs, true, k⟩ := by
                      rw [hib]
                      simp [specConvert, hsb]
                    simp [Node.isExpression, hres]
            | functionDeclaration fid ps b =>
                have he : specExprOf (Node.functionDeclaration fid ps b) = none := by
                  rw [specExprOf.eq_def]
                  simp [Node.isExpression]
                rw [specConvert_cons_none _ tl i exprs he]
                simp [Node.isExpression]
            | property k v cm =>
                have he : specExprOf (Node.property k v cm) = none := by
                  rw [specExprOf.eq_def]
                  simp [Node.isExpression]
                rw [specConvert_cons_none _ tl i exprs he]
                simp [Node.isExpression]
            | variableDeclaration k ds =>
                have he : specExprOf (Node.variableDeclaration k ds) = none := by
                  rw [specExprOf.eq_def]
                  simp [Node.isExpression]
                rw [specConvert_cons_none _ tl i exprs he]
                simp [Node.isExpression]
            | variableDeclarator vid vi =>
                have he : specExprOf (Node.variableDeclarator vid vi) = none := by
                  rw [specExprOf.eq_def]
                  simp [Node.isExpression]
                rw [specConvert_cons_none _ tl i exprs he]
                simp [Node.isExpression]
            | returnStatement arg =>
                have he : specExprOf (Node.returnStatement arg) = none := by
                  rw [specExprOf.eq_def]
                  simp [Node.isExpression]
                rw [specConvert_cons_none _ tl i exprs he]
                simp [Node.isExpression]
            | forStatement fi ft fu fb =>
                have he : specExprOf (Node.forStatement fi ft fu fb) = none := by
                  rw [specExprOf.eq_def]
                  simp [Node.isExpression]
                rw [specConvert_cons_none _ tl i exprs he]
                simp [Node.isExpression]
            | whileStatement wt wb =>
                have he : specExprOf (Node.whileStatement wt wb) = none := by
                  rw [specExprOf.eq_def]
                  simp [Node.isExpression]
                rw [specConvert_cons_none _ tl i exprs he]
                simp [Node.isExpression]
            | program pb =>
                have he : specExprOf (Node.program pb) = none := by
                  rw [specExprOf.eq_def]
                  simp [Node.isExpression]
                rw [specConvert_cons_none _ tl i exprs he]
                simp [Node.isExpression]
            | tryStatement tb th tf =>
                have he : specExprOf (Node.tryStatement tb th tf) = none := by
                  rw [specExprOf.eq_def]
                  simp [Node.isExpression]
                rw [specConvert_cons_none _ tl i exprs he]
                simp [Node.isExpression]
            | catchClause cp cb =>
                have he : specExprOf (Node.catchClause cp cb) = none := by
                  rw [specExprOf.eq_def]
                  simp [Node.isExpression]
                rw [specConvert_cons_none _ tl i exprs he]
                simp [Node.isExpression]
            | hole =>
                have he : specExprOf Node.hole = none := by
                  rw [specExprOf.eq_def]
                  simp [Node.isExpression]
                rw [specConvert_cons_none _ tl i exprs he]
                simp [Node.isExpression]


theorem convertAux_spec (nodes : List Node) (i : Nat) (exprs : List Node) :
    convertAux nodes i exprs = specConvert nodes i exprs :=
  convertAux_eq_aux (nodeListSize nodes) nodes (Nat.le_refl _) i exprs

theorem convert_spec (nodes : List Node) : convert nodes = specConvert nodes 0 [] := by
  rw [convert]
  exact convertAux_spec nodes 0 []

theorem toMultiple_eq_foldSpec_aux :
    ∀ (m : Nat) (statements : List Node), statements.length ≤ m →
      toMultipleSequenceExpressions statements = foldSpec statements := by
  intro m
  induction m with
  | zero =>
      intro statements h
      have hnil : statements = [] := List.eq_nil_of_length_eq_zero (Nat.le_zero.mp h)
      subst hnil
      rw [toMultipleSequenceExpressions.eq_def, foldSpec.eq_def]
      simp [convert_spec, specConvert, specContribs_nil, seqFromExprs, isNode_hole]
  | succ m ih =>
      intro statements h
      rw [toMultipleSequenceExpressions.eq_def, foldSpec.eq_def]
      rcases hsc : specContribs statements with ⟨cs, b⟩
      cases b with
      | none =>
          simp [convert_spec, specConvert, hsc]
      | some k =>
          have hdrop : (statements.drop (k + 1)).length ≤ m := by
            simp [List.length_drop]
            omega
          simp [convert_spec, specConvert, hsc, ih (statements.drop (k + 1)) hdrop]
          split <;> simp

theorem toMultiple_foldSpec (statements : List Node) :
    toMultipleSequenceExpressions statements = foldSpec statements :=
  toMultiple_eq_foldSpec_aux statements.length statements (Nat.le_refl _)

/-- Folding a single expression statement yields that statement back. -/
theorem toMultiple_single_exprStmt (e : Node) (hn : e.isNode = true) :
    toMultipleSequenceExpressions [.expressionStatement e] = [.expressionStatement e] := by
  have h1 : specExprOf (.expressionStatement e) = some e := by
    rw [specExprOf.eq_def]
    simp [Node.isExpression]
  have h2 : specContribs [Node.expressionStatement e] = ([e], none) := by
    simp [specContribs_cons, specContribs_nil, h1]
  rw [toMultiple_foldSpec, foldSpec.eq_def]
  simp [h2, seqFromExprs, hn]

/-- Folding the single if statement of tIf produces the corresponding
conditional expression statement (the test is still untouched here; the
traversal rewrites it when it visits the subtree). -/
theorem toMultiple_tIf :
    toMultipleSequenceExpressions
        [.ifStatement
          (.logicalExpression "&&" (.unaryExpression "!" (.identifier "a") true) (.identifier "b"))
          (.expressionStatement (.callExpression (.identifier "c") []))
          (.expressionStatement (.callExpression (.identifier "d") []))]
      = [.expressionStatement (.conditionalExpression
          (.logicalExpression "&&" (.unaryExpression "!" (.identifier "a") true) (.identifier "b"))
          (.callExpression (.identifier "c") [])
          (.callExpression (.identifier "d") []))] := by
  have h1 : specExprOf (.expressionStatement (.callExpression (.identifier "c") []))
      = some (.callExpression (.identifier "c") []) := by
    rw [specExprOf.eq_def]
    simp [Node.isExpression]
  have h2 : specExprOf (.expressionStatement (.callExpression (.identifier "d") []))
      = some (.callExpression (.identifier "d") []) := by
    rw [specExprOf.eq_def]
    simp [Node.isExpression]
  have h3 : specExprOf (.ifStatement
        (.logicalExpression "&&" (.unaryExpression "!" (.identifier "a") true) (.identifier "b"))
        (.expressionStatement (.callExpression (.identifier "c") []))
        (.expressionStatement (.callExpression (.identifier "d") [])))
      = some (.conditionalExpression
          (.logicalExpression "&&" (.unaryExpression "!" (.identifier "a") true) (.identifier "b"))
          (.callExpression (.identifier "c") [])
          (.callExpression (.identifier "d") [])) := by
    rw [specExprOf.eq_def]
    simp [Node.isExpression, Node.isNode, h1, h2]
  have h4 : specContribs
        [.ifStatement
          (.logicalExpression "&&" (.unaryExpression "!" (.identifier "a") true) (.identifier "b"))
          (.expressionStatement (.callExpression (.identifier "c") []))
          (.expressionStatement (.callExpression (.identifier "d") []))]
      = ([.conditionalExpression
          (.logicalExpression "&&" (.unaryExpression "!" (.identifier "a") true) (.identifier "b"))
          (.callExpression (.identifier "c") [])
          (.callExpression (.identifier "d") [])], none) := by
    simp [specContribs_cons, specContribs_nil, h3]
  rw [toMultiple_foldSpec, foldSpec.eq_def]
  simp [h4, seqFromExprs, Node.isNode]

/-! ## Claim theorems. -/

set_option maxRecDepth 4096 in
/-- C1: semantic preservation fails on the code.  On
`if (!a && b) c(); else d();` with every identifier true, the original
program observes a call to d while the simplified program (whose test was
rewritten by the ungated LogicalExpression rule to `a || b`) observes a
call to c. -/
theorem c1_semantic_preservation_fails :
    evalProgram envTrue tIf = some ["d"] ∧
    evalProgram envTrue (simplify envPreds tIf) = some ["c"] ∧
    evalProgram envTrue (simplify envPreds tIf) ≠ evalProgram envTrue tIf := by
  have e1 : simplify envPreds tIf = Node.program (visitStmts envPreds 63 false
      (if (toMultipleSequenceExpressions
            [.ifStatement
              (.logicalExpression "&&" (.unaryExpression "!" (.identifier "a") true) (.identifier "b"))
              (.expressionStatement (.callExpression (.identifier "c") []))
              (.expressionStatement (.callExpression (.identifier "d") []))]).length == 0
       then [.ifStatement
              (.logicalExpression "&&" (.unaryExpression "!" (.identifier "a") true) (.identifier "b"))
              (.expressionStatement (.callExpression (.identifier "c") []))
              (.expressionStatement (.callExpression (.identifier "d") []))]
       else toMultipleSequenceExpressions
            [.ifStatement
              (.logicalExpression "&&" (.unaryExpression "!" (.identifier "a") true) (.identifier "b"))
              (.expressionStatement (.callExpression (.identifier "c") []))
              (.expressionStatement (.callExpression (.identifier "d") []))]) 0) := rfl
  have h2 : simplify envPreds tIf =
      .program [.expressionStatement (.conditionalExpression
        (.logicalExpression "||" (.identifier "a") (.identifier "b"))
        (.callExpression (.identifier "c") [])
        (.callExpression (.identifier "d") []))] := by
    rw [e1, toMultiple_tIf]
    rfl
  refine ⟨rfl, ?_, ?_⟩
  · rw [h2]
    rfl
  · rw [h2]
    decide

set_option maxRecDepth 4096 in
/-- C2: the whole pass is not idempotent.  On `1 === 2;` one pass yields
`2 == 1;` (equality flip toward the pure right operand, then the
strict-to-loose rewrite) and a second pass flips the now-pure operands
back, yielding `1 == 2;`. -/
theorem c2_fixed_point_fails :
    simplify envPreds tEq =
      .program [.expressionStatement (.binaryExpression "==" (.literal (.n 2)) (.literal (.n 1)))] ∧
    simplify envPreds (simplify envPreds tEq) =
      .program [.expressionStatement (.binaryExpression "==" (.literal (.n 1)) (.literal (.n 2)))] ∧
    simplify envPreds (simplify envPreds tEq) ≠ simplify envPreds tEq := by
  have hfa := toMultiple_single_exprStmt
    (.binaryExpression "===" (.literal (.n 1)) (.literal (.n 2))) rfl
  have hfb := toMultiple_single_exprStmt
    (.binaryExpression "==" (.literal (.n 2)) (.literal (.n 1))) rfl
  have e1 : simplify envPreds tEq = Node.program (visitStmts envPreds 63 false
      (if (toMultipleSequenceExpressions
            [.expressionStatement (.binaryExpression "==="
              (.literal (.n 1)) (.literal (.n 2)))]).length == 0
       then [.expressionStatement (.binaryExpression "===" (.literal (.n 1)) (.literal (.n 2)))]
       else toMultipleSequenceExpressions
            [.expressionStatement (.binaryExpression "==="
              (.literal (.n 1)) (.literal (.n 2)))]) 0) := rfl
  have h1 : simplify envPreds tEq =
      .program [.expressionStatement (.binaryExpression "=="
        (.literal (.n 2)) (.literal (.n 1)))] := by
    rw [e1, hfa]
    rfl
  have e2 : simplify envPreds
      (Node.program [.expressionStatement (.binaryExpression "=="
        (.literal (.n 2)) (.literal (.n 1)))]) = Node.program (visitStmts envPreds 63 false
      (if (toMultipleSequenceExpressions
            [.expressionStatement (.binaryExpression "=="
              (.literal (.n 2)) (.literal (.n 1)))]).length == 0
       then [.expressionStatement (.binaryExpression "==" (.literal (.n 2)) (.literal (.n 1)))]
       else toMultipleSequenceExpressions
            [.expressionStatement (.binaryExpression "=="
              (.literal (.n 2)) (.literal (.n 1)))]) 0) := rfl
  have h2 : simplify envPreds
      (Node.program [.expressionStatement (.binaryExpression "=="
        (.literal (.n 2)) (.literal (.n 1)))]) =
      .program [.expressionStatement (.binaryExpression "=="
        (.literal (.n 1)) (.literal (.n 2)))] := by
    rw [e2, hfb]
    rfl
  refine ⟨h1, by rw [h1, h2], ?_⟩
  rw [h1, h2]
  simp

/-- C3: coerceIf has its declaration guard inverted.  A block holding a
single `let` declaration is coerced to the bare declaration (the claim
requires it to stay a block), while a block holding a single `var`
declaration is left as a block (the claim requires it to be coerced). -/
theorem c3_coerceIf_guard_inverted :
    coerceIf (.blockStatement [letDeclA]) = letDeclA ∧
    coerceIf (.blockStatement [varDeclA]) = .blockStatement [varDeclA] :=
  ⟨rfl, rfl⟩

/-- C4: the if-in-if fold fires even when the inner if statement has an
alternate, silently discarding it: `if (a) { if (b) c(); else d(); }`
is folded to `if (a && b) c();` and the call to d is gone. -/
theorem c4_if_in_if_drops_alternate :
    ifInIfFoldRule (.ifStatement (.identifier "a")
        (.ifStatement (.identifier "b")
          (.expressionStatement (.callExpression (.identifier "c") []))
          (.expressionStatement (.callExpression (.identifier "d") [])))
        .hole)
      = .ifStatement (.logicalExpression "&&" (.identifier "a") (.identifier "b"))
          (.expressionStatement (.callExpression (.identifier "c") [])) .hole :=
  rfl

/-- C5: the dual-return rewrite defaults only the consequent's argument.
On `if (t) return a; else return;` (no next sibling) the replacement is
`return t ? a : <null>` — the alternate slot of the conditional holds the
absent-argument hole instead of `void 0`. -/
theorem c5_dual_return_alternate_not_defaulted :
    ifExitOneCore false
        (.ifStatement (.identifier "t") (.returnStatement (.identifier "a"))
          (.returnStatement .hole)) .hole .hole
      = ⟨.returnStatement (.conditionalExpression (.identifier "t") (.identifier "a") .hole),
          true, false, []⟩ :=
  rfl


/-! ## List positioning helpers for the sibling-rule theorems. -/

theorem getD_append (pre : List Node) (x : Node) (rest : List Node) :
    (pre ++ x :: rest).getD pre.length .hole = x := by
  simp [List.getD_eq_getElem?_getD, List.getElem?_append_right (Nat.le_refl pre.length)]

theorem getD_append_one (pre : List Node) (x y : Node) (rest : List Node) :
    (pre ++ x :: y :: rest).getD (pre.length + 1) .hole = y := by
  simp [List.getD_eq_getElem?_getD,
    List.getElem?_append_right (Nat.le_succ_of_le (Nat.le_refl pre.length))]

theorem drop_append_two (pre : List Node) (x y : Node) (rest : List Node) :
    (pre ++ x :: y :: rest).drop (pre.length + 2) = rest := by
  have hsplit : pre ++ x :: y :: rest = (pre ++ [x, y]) ++ rest := by simp
  rw [hsplit, List.drop_left' (by simp)]

/-- C6 counterexample: on `var a = 1; for (;;) g();` — the for statement
has no init — the rule leaves the list unchanged, so no init is created
and the declaration is not removed. -/
theorem c6_counterexample :
    varDeclForMergeRule c6ExList 0 = c6ExList ∧ c6ExList.length = 2 :=
  ⟨rfl, rfl⟩

/-- C6 amended: the rule merges only when the for statement's init is a
variable declaration of the same kind, prepending this declaration's
declarators and removing the declaration; when the for has no init the
rule does nothing (no init is created — a separate For rule absorbs the
declaration from the other side). -/
theorem c6_merge_only_with_same_kind_init (pre post : List Node) (kind : String)
    (decls ds : List Node) (t u b t2 u2 b2 : Node) :
    varDeclForMergeRule
        (pre ++ Node.variableDeclaration kind decls ::
          Node.forStatement (.variableDeclaration kind ds) t u b :: post) pre.length
      = pre ++ Node.forStatement (.variableDeclaration kind (decls ++ ds)) t u b :: post ∧
    varDeclForMergeRule
        (pre ++ Node.variableDeclaration kind decls ::
          Node.forStatement .hole t2 u2 b2 :: post) pre.length
      = pre ++ Node.variableDeclaration kind decls ::
          Node.forStatement .hole t2 u2 b2 :: post := by
  constructor
  · simp only [varDeclForMergeRule, getD_append, getD_append_one, beq_self_eq_true,
      if_true, List.take_left, drop_append_two]
  · simp only [varDeclForMergeRule, getD_append, getD_append_one]

/-- C7 counterexample: with two pure, distinct operands (`1 === 2`) the
second application of the equality flip swaps the operands back instead
of being a no-op. -/
theorem c7_counterexample :
    binaryFlipRule specIsPure (binaryFlipRule specIsPure
        (.binaryExpression "===" (.literal (.n 1)) (.literal (.n 2))))
      ≠ binaryFlipRule specIsPure
        (.binaryExpression "===" (.literal (.n 1)) (.literal (.n 2))) := by
  intro h
  have h2 : Node.binaryExpression "===" (.literal (.n 1)) (.literal (.n 2))
      = Node.binaryExpression "===" (.literal (.n 2)) (.literal (.n 1)) := h
  simp at h2

/-- C7 amended: applying the equality flip twice yields the same tree as
applying it once exactly when it is not the case that the operator is an
equality operator and both operands are pure and distinct; in that
excluded case the second application swaps the operands back, so the flip
oscillates on pure-pure comparisons. -/
theorem c7_flip_twice_iff (p : Node → Bool) (op : String) (l r : Node) :
    binaryFlipRule p (binaryFlipRule p (.binaryExpression op l r))
        = binaryFlipRule p (.binaryExpression op l r)
      ↔ ¬(EQUALITY_BINARY_OPERATORS.contains op = true ∧ p l = true ∧ p r = true ∧ l ≠ r) := by
  by_cases hop : op ∈ EQUALITY_BINARY_OPERATORS
  · by_cases hr : p r = true
    · by_cases hl : p l = true
      · have hiff : (EQUALITY_BINARY_OPERATORS.contains op = true ∧ p l = true ∧
            p r = true ∧ l ≠ r) ↔ l ≠ r := by
          simp [hop, hl, hr]
        have h1 : binaryFlipRule p (.binaryExpression op l r) = .binaryExpression op r l := by
          simp [binaryFlipRule, hop, hr]
        have h2 : binaryFlipRule p (.binaryExpression op r l) = .binaryExpression op l r := by
          simp [binaryFlipRule, hop, hl]
        rw [h1, h2, hiff]
        constructor
        · intro h
          simp only [Node.binaryExpression.injEq] at h
          exact not_not_intro h.2.1
        · intro h
          have hlr : l = r := of_not_not h
          subst hlr
          rfl
      · have h1 : binaryFlipRule p (.binaryExpression op l r) = .binaryExpression op r l := by
          simp [binaryFlipRule, hop, hr]
        have h2 : binaryFlipRule p (.binaryExpression op r l) = .binaryExpression op r l := by
          simp [binaryFlipRule, hl]
        rw [h1, h2]
        simp [hl]
    · have h1 : binaryFlipRule p (.binaryExpression op l r) = .binaryExpression op l r := by
        simp [binaryFlipRule, hr]
      rw [h1]
      rw [h1]
      simp [hr]
  · have h1 : binaryFlipRule p (.binaryExpression op l r) = .binaryExpression op l r := by
      simp [binaryFlipRule, hop]
    rw [h1]
    rw [h1]
    simp [hop]

/-- C8 counterexample: on `if (x) f(); else g();` the replacement handed
back by the first exit rule is the bare conditional expression, not an
expression statement. -/
theorem c8_counterexample :
    ((ifExitOneCore false (.ifStatement (.identifier "x")
        (.expressionStatement (.callExpression (.identifier "f") []))
        (.expressionStatement (.callExpression (.identifier "g") [])))
        .hole .hole).node).isExpressionStatement = false ∧
    (ifExitOneCore false (.ifStatement (.identifier "x")
        (.expressionStatement (.callExpression (.identifier "f") []))
        (.expressionStatement (.callExpression (.identifier "g") [])))
        .hole .hole)
      = ⟨.conditionalExpression (.identifier "x")
          (.callExpression (.identifier "f") [])
          (.callExpression (.identifier "g") []), true, false, []⟩ :=
  ⟨rfl, rfl⟩

theorem flipTest_binary (op : String) (l r : Node) :
    flipTest (.binaryExpression op l r) =
      if op == "!==" then (Node.binaryExpression "===" l r, true)
      else if op == "!=" then (Node.binaryExpression "==" l r, true)
      else (Node.binaryExpression op l r, false) := by
  by_cases h1 : op == "!==" <;> by_cases h2 : op == "!=" <;> simp [flipTest, h1, h2]

theorem flipTest_eq_of_not_flip (test : Node) (h : (flipTest test).2 = false) :
    flipTest test = (test, false) := by
  cases test
  case binaryExpression op l r =>
    rw [flipTest_binary] at h ⊢
    split_ifs at h ⊢
    all_goals simp_all
  case unaryExpression op a p =>
    by_cases hop : op == "!"
    · rw [show flipTest (.unaryExpression op a p) = (a, true) from by simp [flipTest, hop]] at h
      simp at h
    · simp [flipTest, hop]
  all_goals rfl

theorem flipNegation_if_not_flip (test c a : Node) (h : (flipTest test).2 = false)
    (hc : c.isNode = true) (ha : a.isNode = true) :
    flipNegation (.ifStatement test c a) = .ifStatement test c a := by
  have hft := flipTest_eq_of_not_flip test h
  simp [flipNegation, hc, ha, hft]

/-- C8 amended: when both branches are expression statements, the node is
replaced by the bare conditional expression `test ? ce : ae` — the
replacement is not wrapped in an expression statement (the sequence
folder later accepts bare expressions in statement lists).  Stated for
tests that the negation flip leaves alone. -/
theorem c8_replacement_is_bare_conditional (compl : Bool) (test ce ae next next2 : Node)
    (h : (flipTest test).2 = false) :
    ifExitOneCore compl
        (.ifStatement test (.expressionStatement ce) (.expressionStatement ae)) next next2
      = ⟨.conditionalExpression test ce ae, true, false, []⟩ := by
  have hfn := flipNegation_if_not_flip test
    (.expressionStatement ce) (.expressionStatement ae) h rfl rfl
  simp [ifExitOneCore, coerceIf, hfn, Node.isNode, Node.isExpressionStatement, exprField]

/-- C8 amended, applied at `if (t) u; else v;`. -/
theorem c8_replacement_is_bare_conditional_witness :
    ifExitOneCore false
        (.ifStatement (.identifier "t") (.expressionStatement (.identifier "u"))
          (.expressionStatement (.identifier "v"))) .hole .hole
      = ⟨.conditionalExpression (.identifier "t") (.identifier "u") (.identifier "v"),
          true, false, []⟩ :=
  c8_replacement_is_bare_conditional false (.identifier "t") (.identifier "u")
    (.identifier "v") .hole .hole rfl

/-- C9: the folder realizes its specification: convert accumulates
contributions left to right, the first non-expressible statement ends the
accumulated prefix (emitted as one expression statement), the blocker is
kept verbatim, and folding restarts on the statements after it — so the
output preserves the original statement order. -/
theorem c9_folder_partial_bail (statements : List Node) :
    toMultipleSequenceExpressions statements = foldSpec statements :=
  toMultiple_foldSpec statements

theorem returnSeqJoin_eq_claim (e arg : Node) :
    returnSeqJoin e arg = returnJoinClaim e arg := by
  by_cases harg : arg.isNode = true <;> cases e <;>
    simp [returnSeqJoin, returnJoinClaim, harg]

/-- C10: a return statement whose previous sibling is an expression
statement consumes it: the expression statement is removed and the return
is replaced by a return of the claim's join (comma-join before the
argument, or a void-wrap when the return has no argument). -/
theorem c10_return_merges_previous (pre post : List Node) (e arg : Node) :
    returnStatementRule
        (pre ++ Node.expressionStatement e :: Node.returnStatement arg :: post)
        (pre.length + 1)
      = some (pre ++ Node.returnStatement (returnJoinClaim e arg) :: post) := by
  have hg1 := getD_append_one pre (Node.expressionStatement e) (Node.returnStatement arg) post
  have hg0 := getD_append pre (Node.expressionStatement e) (Node.returnStatement arg :: post)
  have hne : ((pre.length + 1) == 0) = false := by simp
  simp only [returnStatementRule, hg1, hne, Bool.false_eq_true, if_false,
    Nat.add_sub_cancel, hg0, List.take_left, drop_append_two, returnSeqJoin_eq_claim]

end Minify
